import Mathlib

/-!
# Verification of the `ts-typed-storage` core

A shallow embedding of the typed key-value storage facade
(`src/core/syncTypedStorage.ts`), its built-in codecs (`src/core/codecs.ts`),
the reference storage adapter used by the test suite, and the older facade
variant kept in the repository.  JavaScript strings are modelled as `List Char`
(`Str`); JavaScript numbers are modelled as integers together with a `NaN`
element (`JsNumber`); the platform's `JSON.stringify` / `JSON.parse` and
`String(n)` / `Number(s)` builtins, which are not part of the repository,
are modelled from the specification by an executable JSON printer/parser and
decimal printer/parser over this string model.
-/

/-- JavaScript strings, modelled as lists of unicode scalar values. -/
abbrev Str := List Char

/-- Numeric value of a decimal digit character. -/
def charVal (c : Char) : Nat := c.toNat - 48

/-- `true` when the list is empty or does not start with a decimal digit.
Greedy digit reading stops exactly on such a tail. -/
def noDigitHead : List Char → Bool
  | [] => true
  | c :: _ => !c.isDigit

/-- Greedily read decimal digits, accumulating their value onto `acc`
(most significant digit first), returning the value and the unread tail. -/
def readDigits : List Char → Nat → Nat × List Char
  | c :: cs, acc => if c.isDigit then readDigits cs (10 * acc + charVal c) else (acc, c :: cs)
  | [], acc => (acc, [])

/-- Decimal digit string of a natural number, most significant digit first.
Models the JavaScript `String(n)` builtin on non-negative integers. -/
def natDigits (n : Nat) : List Char :=
  if h : n < 10 then [Nat.digitChar n]
  else natDigits (n / 10) ++ [Nat.digitChar (n % 10)]
  decreasing_by exact Nat.div_lt_self (by omega) (by omega)

/-- Decimal string of an integer. Models the JavaScript `String(n)` builtin
on integer-valued numbers. -/
def intToStr (n : Int) : Str :=
  if n < 0 then '-' :: natDigits n.natAbs else natDigits n.toNat

/-- Read one or more decimal digits; `none` when the input does not start
with a digit. -/
def readDigits1 (cs : List Char) : Option (Nat × List Char) :=
  match cs with
  | [] => none
  | c :: rest => if c.isDigit then some (readDigits rest (charVal c)) else none

/-- Parse an optionally negated decimal integer prefix of the input. -/
def parseNum? (cs : List Char) : Option (Int × List Char) :=
  match cs with
  | [] => none
  | c :: rest =>
    if c = '-' then (readDigits1 rest).map (fun p => (-(p.1 : Int), p.2))
    else (readDigits1 cs).map (fun p => ((p.1 : Int), p.2))

/-- Parse a complete decimal integer string. Models the JavaScript
`Number(s)` builtin on the strings `String(n)` produces; inputs that are not
a plain decimal integer yield `none` (standing for JavaScript's `NaN`). -/
def strToInt? (cs : Str) : Option Int :=
  match parseNum? cs with
  | some (n, []) => some n
  | _ => none

theorem digitChar_isDigit {d : Nat} (h : d < 10) : (Nat.digitChar d).isDigit = true := by
  revert h; revert d; decide

theorem charVal_digitChar {d : Nat} (h : d < 10) : charVal (Nat.digitChar d) = d := by
  revert h; revert d; decide

theorem digitChar_ne_neg {d : Nat} (h : d < 10) : Nat.digitChar d ≠ '-' := by
  revert h; revert d; decide

theorem natDigits_head (n : Nat) :
    ∃ d t, d < 10 ∧ natDigits n = Nat.digitChar d :: t := by
  induction n using natDigits.induct with
  | case1 n h =>
    exact ⟨n, [], h, by rw [natDigits]; simp [h]⟩
  | case2 n h ih =>
    obtain ⟨d, t, hd, ht⟩ := ih
    exact ⟨d, t ++ [Nat.digitChar (n % 10)], hd, by rw [natDigits]; simp [h, ht]⟩

theorem readDigits_stop {tail : List Char} (h : noDigitHead tail = true) (acc : Nat) :
    readDigits tail acc = (acc, tail) := by
  cases tail with
  | nil => rfl
  | cons c cs =>
    simp only [noDigitHead, Bool.not_eq_true'] at h
    simp [readDigits, h]

theorem readDigits_natDigits (n : Nat) :
    ∀ tail acc, readDigits (natDigits n ++ tail) acc
      = readDigits tail (acc * 10 ^ (natDigits n).length + n) := by
  induction n using natDigits.induct with
  | case1 n h =>
    intro tail acc
    rw [natDigits]
    simp only [h, dite_true, List.cons_append, List.nil_append, List.length_cons,
      List.length_nil]
    rw [readDigits, if_pos (digitChar_isDigit h), charVal_digitChar h]
    ring_nf
  | case2 n h ih =>
    intro tail acc
    rw [natDigits]
    simp only [h, dite_false, List.append_assoc, List.cons_append, List.nil_append,
      List.length_append, List.length_cons, List.length_nil]
    rw [ih]
    rw [readDigits, if_pos (digitChar_isDigit (Nat.mod_lt n (by omega))),
      charVal_digitChar (Nat.mod_lt n (by omega))]
    have hdm : 10 * (n / 10) + n % 10 = n := by omega
    have : 10 * (acc * 10 ^ (natDigits (n / 10)).length + n / 10) + n % 10
        = acc * 10 ^ ((natDigits (n / 10)).length + 1) + n := by
      rw [pow_succ]; ring_nf; omega
    rw [this]

theorem readDigits1_natDigits (m : Nat) {tail : List Char}
    (h : noDigitHead tail = true) :
    readDigits1 (natDigits m ++ tail) = some (m, tail) := by
  obtain ⟨d, t, hd, ht⟩ := natDigits_head m
  have hfull : readDigits (natDigits m ++ tail) 0 = (m, tail) := by
    rw [readDigits_natDigits m tail 0, Nat.zero_mul, Nat.zero_add, readDigits_stop h]
  rw [ht] at hfull ⊢
  rw [List.cons_append] at hfull ⊢
  rw [readDigits, if_pos (digitChar_isDigit hd)] at hfull
  rw [readDigits1, if_pos (digitChar_isDigit hd)]
  rw [Nat.mul_zero, Nat.zero_add] at hfull
  rw [hfull]

theorem parseNum_intToStr (n : Int) {rest : List Char}
    (h : noDigitHead rest = true) :
    parseNum? (intToStr n ++ rest) = some (n, rest) := by
  by_cases hn : n < 0
  · rw [intToStr, if_pos hn, List.cons_append, parseNum?, if_pos rfl,
      readDigits1_natDigits n.natAbs h]
    simp only [Option.map_some']
    congr 1
    have : ((n.natAbs : Int)) = -n := by omega
    rw [this]; simp
  · rw [intToStr, if_neg hn]
    obtain ⟨d, t, hd, ht⟩ := natDigits_head n.toNat
    rw [ht, List.cons_append, parseNum?, if_neg (digitChar_ne_neg hd), ← List.cons_append, ← ht,
      readDigits1_natDigits n.toNat h]
    simp only [Option.map_some']
    rw [Int.toNat_of_nonneg (le_of_not_lt hn)]

theorem strToInt_intToStr (n : Int) : strToInt? (intToStr n) = some n := by
  have := @parseNum_intToStr n [] rfl
  rw [List.append_nil] at this
  rw [strToInt?, this]

/-- A codec, from `src/core/codecs.ts`: `encode(value): string` and
`decode(raw: string | null): T | null`. -/
structure Codec (α : Type) where
  encode : α → Str
  decode : Option Str → Option α

/-- `stringCodec`: encode is the identity, decode returns the raw string
as-is (`null` for `null`). -/
def stringCodec : Codec Str where
  encode := fun v => v
  decode := fun raw => raw

/-- `booleanCodec`: `true ↦ "1"`, `false ↦ "0"`; decode maps `"1"` to `true`,
`"0"` to `false`, and anything else (including `null`) to `null`. -/
def booleanCodec : Codec Bool where
  encode := fun v => if v then ['1'] else ['0']
  decode := fun raw =>
    if raw = some ['1'] then some true
    else if raw = some ['0'] then some false
    else none

/-- A JavaScript number restricted to integer values: `none` stands for
`NaN`, `some n` for the integer `n`.  (Non-integer doubles are outside the
scope of this model.) -/
abbrev JsNumber := Option Int

/-- `String(v)` on a `JsNumber`: `NaN` prints as `"NaN"`. -/
def jsNumberToStr : JsNumber → Str
  | none => ['N', 'a', 'N']
  | some n => intToStr n

/-- `numberCodec`: encode via `String(v)`, decode via `Number(raw)`
(`null` for `null`; a non-numeric raw string gives `NaN`, i.e. `none`
inside the `JsNumber`). -/
def numberCodec : Codec JsNumber where
  encode := jsNumberToStr
  decode := fun raw => raw.map strToInt?

/-- JSON values as produced and consumed by the `jsonCodec`
(numbers restricted to integers, strings to unicode scalar sequences). -/
inductive Json where
  | null : Json
  | bool (b : Bool) : Json
  | num (n : Int) : Json
  | str (s : Str) : Json
  | arr (elems : List Json) : Json
  | obj (members : List (Str × Json)) : Json

/-- Hexadecimal digit character (lower case, as `JSON.stringify` emits). -/
def hexDigitChar (n : Nat) : Char :=
  if n < 10 then Nat.digitChar n
  else if n = 10 then 'a'
  else if n = 11 then 'b'
  else if n = 12 then 'c'
  else if n = 13 then 'd'
  else if n = 14 then 'e'
  else 'f'

/-- `JSON.stringify` escaping of a single character inside a string literal:
quote and backslash get a backslash escape, the named control characters get
their short escapes, other control characters get a `\u00XX` escape, and
everything else is emitted verbatim. -/
def escChar (c : Char) : List Char :=
  if c = '"' then ['\\', '"']
  else if c = '\\' then ['\\', '\\']
  else if c = '\x08' then ['\\', 'b']
  else if c = '\x0c' then ['\\', 'f']
  else if c = '\n' then ['\\', 'n']
  else if c = '\r' then ['\\', 'r']
  else if c = '\t' then ['\\', 't']
  else if c.toNat < 32 then
    ['\\', 'u', '0', '0', hexDigitChar (c.toNat / 16), hexDigitChar (c.toNat % 16)]
  else [c]

/-- Body of a JSON string literal: each character escaped, closed by `"`. -/
def escBody : Str → List Char
  | [] => ['"']
  | c :: cs => escChar c ++ escBody cs

/-- A JSON string literal: opening quote, escaped body, closing quote. -/
def escString (s : Str) : List Char := '"' :: escBody s

mutual

/-- Model of `JSON.stringify` (no indentation argument): canonical compact
JSON text of a value. -/
def stringify : Json → List Char
  | .null => 'n' :: 'u' :: ['l', 'l']
  | .bool true => 't' :: 'r' :: ['u', 'e']
  | .bool false => 'f' :: 'a' :: ['l', 's', 'e']
  | .num n => intToStr n
  | .str s => escString s
  | .arr es => '[' :: stringifyElems es ++ [']']
  | .obj ms => '{' :: stringifyMembers ms ++ ['}']

/-- Comma-separated stringification of array elements. -/
def stringifyElems : List Json → List Char
  | [] => []
  | [x] => stringify x
  | x :: xs => stringify x ++ ',' :: stringifyElems xs

/-- Comma-separated stringification of object members (`"key":value`). -/
def stringifyMembers : List (Str × Json) → List Char
  | [] => []
  | [kv] => escString kv.1 ++ ':' :: stringify kv.2
  | kv :: ms => escString kv.1 ++ ':' :: stringify kv.2 ++ ',' :: stringifyMembers ms

end

/-- JSON insignificant whitespace. -/
def isWs (c : Char) : Bool := c = ' ' || c = '\t' || c = '\n' || c = '\r'

/-- Skip leading insignificant whitespace. -/
def skipWs : List Char → List Char
  | [] => []
  | c :: cs => if isWs c then skipWs cs else c :: cs

/-- Boolean prefix test on character lists. -/
def isPfx : List Char → List Char → Bool
  | [], _ => true
  | _ :: _, [] => false
  | a :: as, b :: bs => a = b && isPfx as bs

/-- Value of a hexadecimal digit character, `none` for non-hex characters. -/
def hexVal? (c : Char) : Option Nat :=
  if c.isDigit then some (charVal c)
  else if 'a' ≤ c && c ≤ 'f' then some (c.toNat - 87)
  else if 'A' ≤ c && c ≤ 'F' then some (c.toNat - 55)
  else none

/-- The character with the given code point, `none` when the code is not a
unicode scalar value (surrogate halves are not representable in this string
model; they never occur in `JSON.stringify` output). -/
def charFromCode (n : Nat) : Option Char :=
  if h : n.isValidChar then some (Char.ofNat n) else none

/-- Parse the body of a JSON string literal after the opening quote,
returning the decoded characters and the input after the closing quote. -/
def parseStrBody : List Char → Option (Str × List Char)
  | [] => none
  | c :: rest =>
    if c = '"' then some ([], rest)
    else if c = '\\' then
      match rest with
      | [] => none
      | e :: rest2 =>
        if e = '"' then (parseStrBody rest2).map (fun p => ('"' :: p.1, p.2))
        else if e = '\\' then (parseStrBody rest2).map (fun p => ('\\' :: p.1, p.2))
        else if e = '/' then (parseStrBody rest2).map (fun p => ('/' :: p.1, p.2))
        else if e = 'b' then (parseStrBody rest2).map (fun p => ('\x08' :: p.1, p.2))
        else if e = 'f' then (parseStrBody rest2).map (fun p => ('\x0c' :: p.1, p.2))
        else if e = 'n' then (parseStrBody rest2).map (fun p => ('\n' :: p.1, p.2))
        else if e = 'r' then (parseStrBody rest2).map (fun p => ('\r' :: p.1, p.2))
        else if e = 't' then (parseStrBody rest2).map (fun p => ('\t' :: p.1, p.2))
        else if e = 'u' then
          match rest2 with
          | h1 :: h2 :: h3 :: h4 :: rest3 =>
            match hexVal? h1, hexVal? h2, hexVal? h3, hexVal? h4 with
            | some a, some b, some c3, some d =>
              match charFromCode (((a * 16 + b) * 16 + c3) * 16 + d) with
              | some ch => (parseStrBody rest3).map (fun p => (ch :: p.1, p.2))
              | none => none
            | _, _, _, _ => none
          | _ => none
        else none
    else if c.toNat < 32 then none
    else (parseStrBody rest).map (fun p => (c :: p.1, p.2))

mutual

/-- Fuelled model of `JSON.parse` on one value: skip whitespace, dispatch on
the first character, return the parsed value and the unconsumed tail. -/
def parseVal : Nat → List Char → Option (Json × List Char)
  | 0, _ => none
  | fuel + 1, cs =>
    match skipWs cs with
    | [] => none
    | c :: rest =>
      if c = 'n' then
        if isPfx ['u', 'l', 'l'] rest then some (.null, rest.drop 3) else none
      else if c = 't' then
        if isPfx ['r', 'u', 'e'] rest then some (.bool true, rest.drop 3) else none
      else if c = 'f' then
        if isPfx ['a', 'l', 's', 'e'] rest then some (.bool false, rest.drop 4) else none
      else if c = '"' then
        (parseStrBody rest).map (fun p => (.str p.1, p.2))
      else if c = '[' then
        match skipWs rest with
        | [] => none
        | c2 :: r2 =>
          if c2 = ']' then some (.arr [], r2)
          else (parseElems fuel (c2 :: r2)).map (fun p => (.arr p.1, p.2))
      else if c = '{' then
        match skipWs rest with
        | [] => none
        | c2 :: r2 =>
          if c2 = '}' then some (.obj [], r2)
          else (parseMembers fuel (c2 :: r2)).map (fun p => (.obj p.1, p.2))
      else
        (parseNum? (c :: rest)).map (fun p => (.num p.1, p.2))

/-- Parse one or more comma-separated array elements and the closing `]`. -/
def parseElems : Nat → List Char → Option (List Json × List Char)
  | 0, _ => none
  | fuel + 1, cs =>
    (parseVal fuel cs).bind (fun p =>
      match skipWs p.2 with
      | [] => none
      | c :: r2 =>
        if c = ',' then (parseElems fuel r2).map (fun q => (p.1 :: q.1, q.2))
        else if c = ']' then some ([p.1], r2)
        else none)

/-- Parse one or more comma-separated object members and the closing `}`. -/
def parseMembers : Nat → List Char → Option (List (Str × Json) × List Char)
  | 0, _ => none
  | fuel + 1, cs =>
    match skipWs cs with
    | [] => none
    | c :: rest =>
      if c = '"' then
        (parseStrBody rest).bind (fun pk =>
          match skipWs pk.2 with
          | [] => none
          | c2 :: r2 =>
            if c2 = ':' then
              (parseVal fuel r2).bind (fun pv =>
                match skipWs pv.2 with
                | [] => none
                | c3 :: r3 =>
                  if c3 = ',' then
                    (parseMembers fuel r3).map (fun q => ((pk.1, pv.1) :: q.1, q.2))
                  else if c3 = '}' then some ([(pk.1, pv.1)], r3)
                  else none)
            else none)
      else none

end

/-- Model of `JSON.parse` on a whole string: parse one value with enough fuel
and require only whitespace to remain; `none` models the thrown parse error. -/
def jsonParse (s : Str) : Option Json :=
  match parseVal (s.length + 1) s with
  | some (j, rest) => if skipWs rest = [] then some j else none
  | none => none

/-- The `jsonCodec<T>()` factory applied to the JSON value model: encode via
`JSON.stringify`, decode via `JSON.parse` (`null` for `null`; a parse failure,
which throws in JavaScript, is modelled as `none` and is unreachable in the
verified claims). -/
def jsonCodecM : Codec Json where
  encode := stringify
  decode := fun raw => raw.bind jsonParse

theorem hexVal_hexDigitChar {n : Nat} (h : n < 16) :
    hexVal? (hexDigitChar n) = some n := by
  revert h; revert n; decide

theorem charFromCode_toNat (c : Char) : charFromCode c.toNat = some c := by
  have h : c.toNat.isValidChar := c.valid
  rw [charFromCode, dif_pos h, Char.ofNat_toNat]

theorem parseStrBody_escBody (s : Str) :
    ∀ rest : List Char, parseStrBody (escBody s ++ rest) = some (s, rest) := by
  induction s with
  | nil => intro rest; rw [escBody]; rw [parseStrBody.eq_def]; simp
  | cons c cs ih =>
    intro rest
    rw [escBody, List.append_assoc]
    by_cases h1 : c = '"'
    · subst h1; rw [escChar]; rw [parseStrBody.eq_def]; simp [ih]
    · by_cases h2 : c = '\\'
      · subst h2; rw [escChar]; rw [parseStrBody.eq_def]; simp [ih]
      · by_cases h3 : c = '\x08'
        · subst h3; rw [escChar]; rw [parseStrBody.eq_def]; simp [ih]
        · by_cases h4 : c = '\x0c'
          · subst h4; rw [escChar]; rw [parseStrBody.eq_def]; simp [ih]
          · by_cases h5 : c = '\n'
            · subst h5; rw [escChar]; rw [parseStrBody.eq_def]; simp [ih]
            · by_cases h6 : c = '\r'
              · subst h6; rw [escChar]; rw [parseStrBody.eq_def]; simp [ih]
              · by_cases h7 : c = '\t'
                · subst h7; rw [escChar]; rw [parseStrBody.eq_def]; simp [ih]
                · by_cases h8 : c.toNat < 32
                  · rw [escChar, if_neg h1, if_neg h2, if_neg h3, if_neg h4, if_neg h5,
                      if_neg h6, if_neg h7, if_pos h8]
                    have hhi : c.toNat / 16 < 16 := by omega
                    have hlo : c.toNat % 16 < 16 := by omega
                    simp only [List.cons_append, List.nil_append]
                    rw [parseStrBody.eq_def]
                    simp only [reduceIte, Char.reduceEq]
                    rw [hexVal_hexDigitChar hhi, hexVal_hexDigitChar hlo]
                    have h00 : hexVal? '0' = some 0 := by decide
                    rw [h00]
                    have hcode : ((0 * 16 + 0) * 16 + c.toNat / 16) * 16 + c.toNat % 16
                        = c.toNat := by omega
                    simp only [hcode, charFromCode_toNat, ih, Option.map_some']
                  · rw [escChar, if_neg h1, if_neg h2, if_neg h3, if_neg h4, if_neg h5,
                      if_neg h6, if_neg h7, if_neg h8]
                    simp only [List.cons_append, List.nil_append]
                    rw [parseStrBody.eq_def]
                    simp only [if_neg h1, if_neg h2, if_neg h8, ih, Option.map_some']

mutual

/-- Parser fuel sufficient for one JSON value. -/
def jfuel : Json → Nat
  | .null => 1
  | .bool _ => 1
  | .num _ => 1
  | .str _ => 1
  | .arr es => lfuel es + 1
  | .obj ms => mfuel ms + 1

/-- Parser fuel sufficient for a list of array elements. -/
def lfuel : List Json → Nat
  | [] => 1
  | x :: xs => 1 + max (jfuel x) (lfuel xs)

/-- Parser fuel sufficient for a list of object members. -/
def mfuel : List (Str × Json) → Nat
  | [] => 1
  | kv :: ms => 1 + max (jfuel kv.2) (mfuel ms)

end

theorem jfuel_pos (j : Json) : 1 ≤ jfuel j := by
  cases j <;> simp [jfuel] <;> omega

theorem lfuel_pos (es : List Json) : 1 ≤ lfuel es := by
  cases es <;> simp [lfuel]

theorem mfuel_pos (ms : List (Str × Json)) : 1 ≤ mfuel ms := by
  cases ms <;> simp [mfuel]

theorem digitChar_dispatch {d : Nat} (h : d < 10) :
    isWs (Nat.digitChar d) = false ∧ Nat.digitChar d ≠ 'n' ∧ Nat.digitChar d ≠ 't'
      ∧ Nat.digitChar d ≠ 'f' ∧ Nat.digitChar d ≠ '"' ∧ Nat.digitChar d ≠ '['
      ∧ Nat.digitChar d ≠ '{' ∧ Nat.digitChar d ≠ ']' ∧ Nat.digitChar d ≠ '}' := by
  revert h; revert d; decide

theorem intToStr_head (n : Int) :
    ∃ c t, intToStr n = c :: t ∧ isWs c = false ∧ c ≠ 'n' ∧ c ≠ 't' ∧ c ≠ 'f'
      ∧ c ≠ '"' ∧ c ≠ '[' ∧ c ≠ '{' ∧ c ≠ ']' ∧ c ≠ '}' := by
  by_cases hn : n < 0
  · exact ⟨'-', natDigits n.natAbs, by rw [intToStr, if_pos hn], by decide, by decide,
      by decide, by decide, by decide, by decide, by decide, by decide, by decide⟩
  · obtain ⟨d, t, hd, ht⟩ := natDigits_head n.toNat
    obtain ⟨w1, w2, w3, w4, w5, w6, w7, w8, w9⟩ := digitChar_dispatch hd
    exact ⟨Nat.digitChar d, t, by rw [intToStr, if_neg hn, ht], w1, w2, w3, w4, w5, w6,
      w7, w8, w9⟩

theorem stringify_head (j : Json) :
    ∃ c t, stringify j = c :: t ∧ isWs c = false ∧ c ≠ ']' ∧ c ≠ '}' := by
  cases j with
  | null => exact ⟨'n', _, by rw [stringify], by decide, by decide, by decide⟩
  | bool b =>
    cases b with
    | true => exact ⟨'t', _, by rw [stringify], by decide, by decide, by decide⟩
    | false => exact ⟨'f', _, by rw [stringify], by decide, by decide, by decide⟩
  | num n =>
    obtain ⟨c, t, hct, w1, _, _, _, _, _, _, w8, w9⟩ := intToStr_head n
    exact ⟨c, t, by rw [stringify, hct], w1, w8, w9⟩
  | str s => exact ⟨'"', _, by rw [stringify, escString], by decide, by decide, by decide⟩
  | arr es =>
    exact ⟨'[', stringifyElems es ++ [']'], by rw [stringify, List.cons_append], by decide,
      by decide, by decide⟩
  | obj ms =>
    exact ⟨'{', stringifyMembers ms ++ ['}'], by rw [stringify, List.cons_append], by decide,
      by decide, by decide⟩

theorem stringifyElems_head {es : List Json} (h : es ≠ []) :
    ∃ c t, stringifyElems es = c :: t ∧ isWs c = false ∧ c ≠ ']' := by
  match es with
  | [x] =>
    obtain ⟨c, t, hct, w1, w2, _⟩ := stringify_head x
    exact ⟨c, t, by rw [stringifyElems, hct], w1, w2⟩
  | x :: y :: ys =>
    obtain ⟨c, t, hct, w1, w2, _⟩ := stringify_head x
    exact ⟨c, t ++ ',' :: stringifyElems (y :: ys), by simp [stringifyElems, hct], w1, w2⟩

theorem skipWs_cons {c : Char} (h : isWs c = false) (cs : List Char) :
    skipWs (c :: cs) = c :: cs := by
  rw [skipWs, h]; simp

theorem noDigitHead_cons (c : Char) (cs : List Char) :
    noDigitHead (c :: cs) = !c.isDigit := rfl

theorem parse_stringify (fuel : Nat) :
    (∀ j rest, jfuel j ≤ fuel → noDigitHead rest = true →
      parseVal fuel (stringify j ++ rest) = some (j, rest)) ∧
    (∀ es rest, es ≠ [] → lfuel es ≤ fuel →
      parseElems fuel (stringifyElems es ++ ']' :: rest) = some (es, rest)) ∧
    (∀ ms rest, ms ≠ [] → mfuel ms ≤ fuel →
      parseMembers fuel (stringifyMembers ms ++ '}' :: rest) = some (ms, rest)) := by
  induction fuel with
  | zero =>
    refine ⟨?_, ?_, ?_⟩
    · intro j rest hf _; have := jfuel_pos j; omega
    · intro es rest _ hf; have := lfuel_pos es; omega
    · intro ms rest _ hf; have := mfuel_pos ms; omega
  | succ fuel ih =>
    obtain ⟨ihv, ihe, ihm⟩ := ih
    refine ⟨?_, ?_, ?_⟩
    · intro j rest hf hnd
      cases j with
      | null =>
        rw [stringify, parseVal]
        simp [skipWs, isWs, isPfx]
      | bool b =>
        cases b with
        | true =>
          rw [stringify, parseVal]
          simp [skipWs, isWs, isPfx]
        | false =>
          rw [stringify, parseVal]
          simp [skipWs, isWs, isPfx]
      | num n =>
        rw [stringify]
        obtain ⟨c, t, hct, w1, w2, w3, w4, w5, w6, w7, _, _⟩ := intToStr_head n
        rw [hct, List.cons_append, parseVal]
        simp only [skipWs_cons w1]
        simp only [if_neg w2, if_neg w3, if_neg w4, if_neg w5, if_neg w6, if_neg w7]
        rw [← List.cons_append, ← hct, parseNum_intToStr n hnd]
        simp
      | str s =>
        rw [stringify, escString, List.cons_append, parseVal]
        simp only [skipWs_cons (show isWs '"' = false by decide)]
        simp only [Char.reduceEq, if_neg, reduceIte]
        rw [parseStrBody_escBody s rest]
        simp
      | arr es =>
        cases es with
        | nil =>
          rw [stringify, stringifyElems, parseVal]
          simp [skipWs, isWs]
        | cons x xs =>
          have hes : (x :: xs : List Json) ≠ [] := by simp
          have hfe : lfuel (x :: xs) ≤ fuel := by rw [jfuel] at hf; omega
          obtain ⟨c, t, hct, w1, w2⟩ := stringifyElems_head hes
          rw [stringify]
          simp only [List.cons_append, List.append_assoc, List.singleton_append,
            List.nil_append]
          rw [parseVal]
          simp only [skipWs_cons (show isWs '[' = false by decide)]
          simp only [Char.reduceEq, if_neg, reduceIte]
          rw [hct, List.cons_append]
          simp only [skipWs_cons w1]
          simp only [if_neg w2]
          rw [← List.cons_append, ← hct, ihe (x :: xs) rest hes hfe]
          simp
      | obj ms =>
        cases ms with
        | nil =>
          rw [stringify, stringifyMembers, parseVal]
          simp [skipWs, isWs]
        | cons kv ms' =>
          have hms : (kv :: ms' : List (Str × Json)) ≠ [] := by simp
          have hfm : mfuel (kv :: ms') ≤ fuel := by rw [jfuel] at hf; omega
          rw [stringify]
          simp only [List.cons_append, List.append_assoc, List.singleton_append,
            List.nil_append]
          rw [parseVal]
          simp only [skipWs_cons (show isWs '{' = false by decide)]
          simp only [Char.reduceEq, if_neg, reduceIte]
          have hhead : ∃ t2, stringifyMembers (kv :: ms') = '"' :: t2 := by
            cases ms' with
            | nil =>
              exact ⟨escBody kv.1 ++ ':' :: stringify kv.2, by
                rw [stringifyMembers, escString]; rfl⟩
            | cons m2 ms2 =>
              exact ⟨escBody kv.1 ++ ':' :: stringify kv.2 ++ ','
                  :: stringifyMembers (m2 :: ms2), by
                simp [stringifyMembers, escString]⟩
          obtain ⟨t2, ht2⟩ := hhead
          rw [ht2, List.cons_append]
          simp only [skipWs_cons (show isWs '"' = false by decide)]
          simp only [Char.reduceEq, if_neg, reduceIte]
          rw [← List.cons_append, ← ht2, ihm (kv :: ms') rest hms hfm]
          simp
    · intro es rest hne hfe
      cases es with
      | nil => exact absurd rfl hne
      | cons x xs =>
        cases xs with
        | nil =>
          have hfx : jfuel x ≤ fuel := by
            rw [lfuel] at hfe
            have := Nat.le_max_left (jfuel x) (lfuel ([] : List Json))
            omega
          rw [stringifyElems, parseElems,
            ihv x (']' :: rest) hfx (by rw [noDigitHead_cons]; decide)]
          simp [skipWs, isWs]
        | cons y ys =>
          have hne2 : (y :: ys : List Json) ≠ [] := by simp
          have hfx : jfuel x ≤ fuel := by
            rw [lfuel] at hfe
            have := Nat.le_max_left (jfuel x) (lfuel (y :: ys))
            omega
          have hfy : lfuel (y :: ys) ≤ fuel := by
            rw [lfuel] at hfe
            have := Nat.le_max_right (jfuel x) (lfuel (y :: ys))
            omega
          have hs : stringifyElems (x :: y :: ys)
              = stringify x ++ ',' :: stringifyElems (y :: ys) := by
            simp [stringifyElems]
          rw [hs, List.append_assoc, List.cons_append, parseElems,
            ihv x _ hfx (by rw [noDigitHead_cons]; decide)]
          simp only [Option.bind_eq_bind, Option.some_bind]
          simp only [skipWs_cons (show isWs ',' = false by decide)]
          simp only [Char.reduceEq, reduceIte]
          rw [ihe (y :: ys) rest hne2 hfy]
          simp
    · intro ms rest hne hfm
      cases ms with
      | nil => exact absurd rfl hne
      | cons kv ms' =>
        cases ms' with
        | nil =>
          have hfv : jfuel kv.2 ≤ fuel := by
            rw [mfuel] at hfm
            have := Nat.le_max_left (jfuel kv.2) (mfuel ([] : List (Str × Json)))
            omega
          rw [stringifyMembers, escString, List.cons_append, List.cons_append,
            parseMembers]
          simp only [skipWs_cons (show isWs '"' = false by decide)]
          simp only [Char.reduceEq, reduceIte]
          rw [List.append_assoc, List.cons_append, parseStrBody_escBody kv.1]
          simp only [Option.bind_eq_bind, Option.some_bind]
          simp only [skipWs_cons (show isWs ':' = false by decide)]
          simp only [Char.reduceEq, reduceIte]
          rw [ihv kv.2 _ hfv (by rw [noDigitHead_cons]; decide)]
          simp only [Option.some_bind]
          simp only [skipWs_cons (show isWs '}' = false by decide)]
          simp [skipWs, isWs]
        | cons m2 ms2 =>
          have hne2 : (m2 :: ms2 : List (Str × Json)) ≠ [] := by simp
          have hfv : jfuel kv.2 ≤ fuel := by
            rw [mfuel] at hfm
            have := Nat.le_max_left (jfuel kv.2) (mfuel (m2 :: ms2))
            omega
          have hfr : mfuel (m2 :: ms2) ≤ fuel := by
            rw [mfuel] at hfm
            have := Nat.le_max_right (jfuel kv.2) (mfuel (m2 :: ms2))
            omega
          have hs : stringifyMembers (kv :: m2 :: ms2)
              = escString kv.1 ++ ':' :: stringify kv.2 ++ ','
                :: stringifyMembers (m2 :: ms2) := by
            simp [stringifyMembers]
          rw [hs, escString]
          simp only [List.cons_append, List.append_assoc]
          rw [parseMembers]
          simp only [skipWs_cons (show isWs '"' = false by decide)]
          simp only [Char.reduceEq, reduceIte]
          rw [parseStrBody_escBody kv.1]
          simp only [Option.bind_eq_bind, Option.some_bind]
          simp only [skipWs_cons (show isWs ':' = false by decide)]
          simp only [Char.reduceEq, reduceIte]
          rw [ihv kv.2 _ hfv (by rw [noDigitHead_cons]; decide)]
          simp only [Option.some_bind]
          simp only [skipWs_cons (show isWs ',' = false by decide)]
          simp only [Char.reduceEq, reduceIte]
          rw [ihm (m2 :: ms2) rest hne2 hfr]
          simp

theorem stringify_length_pos (j : Json) : 1 ≤ (stringify j).length := by
  obtain ⟨c, t, hct, _⟩ := stringify_head j
  rw [hct]; simp

theorem fuel_le_length (n : Nat) :
    (∀ j, jfuel j ≤ n → jfuel j ≤ (stringify j).length + 1) ∧
    (∀ es, es ≠ [] → lfuel es ≤ n → lfuel es ≤ (stringifyElems es).length + 2) ∧
    (∀ ms, ms ≠ [] → mfuel ms ≤ n → mfuel ms ≤ (stringifyMembers ms).length + 2) := by
  induction n with
  | zero =>
    refine ⟨?_, ?_, ?_⟩
    · intro j hf; have := jfuel_pos j; omega
    · intro es _ hf; have := lfuel_pos es; omega
    · intro ms _ hf; have := mfuel_pos ms; omega
  | succ n ih =>
    obtain ⟨ih1, ih2, ih3⟩ := ih
    refine ⟨?_, ?_, ?_⟩
    · intro j hf
      cases j with
      | null => rw [jfuel]; omega
      | bool b => rw [jfuel]; omega
      | num m => rw [jfuel]; omega
      | str s => rw [jfuel]; omega
      | arr es =>
        cases es with
        | nil => rw [jfuel, lfuel]; rw [stringify, stringifyElems]; simp
        | cons x xs =>
          rw [jfuel] at hf ⊢
          have hb := ih2 (x :: xs) (by simp) (by omega)
          rw [stringify]
          simp only [List.length_append, List.length_cons, List.length_nil]
          omega
      | obj ms =>
        cases ms with
        | nil => rw [jfuel, mfuel]; rw [stringify, stringifyMembers]; simp
        | cons kv ms' =>
          rw [jfuel] at hf ⊢
          have hb := ih3 (kv :: ms') (by simp) (by omega)
          rw [stringify]
          simp only [List.length_append, List.length_cons, List.length_nil]
          omega
    · intro es hne hfe
      cases es with
      | nil => exact absurd rfl hne
      | cons x xs =>
        cases xs with
        | nil =>
          rw [lfuel, lfuel] at hfe ⊢
          have hx : jfuel x ≤ n := by
            have := Nat.le_max_left (jfuel x) (1 : Nat); omega
          have hb := ih1 x hx
          have hmax : max (jfuel x) 1 ≤ (stringify x).length + 1 :=
            Nat.max_le.mpr ⟨hb, by omega⟩
          rw [stringifyElems]
          omega
        | cons y ys =>
          rw [lfuel] at hfe ⊢
          have hx : jfuel x ≤ n := by
            have := Nat.le_max_left (jfuel x) (lfuel (y :: ys)); omega
          have hy : lfuel (y :: ys) ≤ n := by
            have := Nat.le_max_right (jfuel x) (lfuel (y :: ys)); omega
          have hbx := ih1 x hx
          have hby := ih2 (y :: ys) (by simp) hy
          have hpx := stringify_length_pos x
          have hs : stringifyElems (x :: y :: ys)
              = stringify x ++ ',' :: stringifyElems (y :: ys) := by
            simp [stringifyElems]
          have hmax : max (jfuel x) (lfuel (y :: ys))
              ≤ (stringify x).length + (stringifyElems (y :: ys)).length + 1 :=
            Nat.max_le.mpr ⟨by omega, by omega⟩
          rw [hs]
          simp only [List.length_append, List.length_cons]
          omega
    · intro ms hne hfm
      cases ms with
      | nil => exact absurd rfl hne
      | cons kv ms' =>
        cases ms' with
        | nil =>
          rw [mfuel, mfuel] at hfm ⊢
          have hv : jfuel kv.2 ≤ n := by
            have := Nat.le_max_left (jfuel kv.2) (1 : Nat); omega
          have hb := ih1 kv.2 hv
          have hmax : max (jfuel kv.2) 1 ≤ (stringify kv.2).length + 1 :=
            Nat.max_le.mpr ⟨hb, by omega⟩
          rw [stringifyMembers]
          simp only [List.length_append, List.length_cons]
          omega
        | cons m2 ms2 =>
          rw [mfuel] at hfm ⊢
          have hv : jfuel kv.2 ≤ n := by
            have := Nat.le_max_left (jfuel kv.2) (mfuel (m2 :: ms2)); omega
          have hr : mfuel (m2 :: ms2) ≤ n := by
            have := Nat.le_max_right (jfuel kv.2) (mfuel (m2 :: ms2)); omega
          have hbv := ih1 kv.2 hv
          have hbr := ih3 (m2 :: ms2) (by simp) hr
          have hpv := stringify_length_pos kv.2
          have hs : stringifyMembers (kv :: m2 :: ms2)
              = escString kv.1 ++ ':' :: stringify kv.2 ++ ','
                :: stringifyMembers (m2 :: ms2) := by
            simp [stringifyMembers]
          have hmax : max (jfuel kv.2) (mfuel (m2 :: ms2))
              ≤ (stringify kv.2).length + (stringifyMembers (m2 :: ms2)).length + 1 :=
            Nat.max_le.mpr ⟨by omega, by omega⟩
          rw [hs]
          simp only [List.length_append, List.length_cons]
          omega

theorem jsonParse_stringify (j : Json) : jsonParse (stringify j) = some j := by
  have hb : jfuel j ≤ (stringify j).length + 1 := (fuel_le_length (jfuel j)).1 j le_rfl
  have hrt := (parse_stringify ((stringify j).length + 1)).1 j [] hb rfl
  rw [List.append_nil] at hrt
  rw [jsonParse, hrt]
  simp [skipWs]

/-- C1: for every built-in codec (string, boolean, number, json) and every
representable value `v` of the codec's bound type,
`decode(encode(v))` equals `v` (wrapped in `some`, i.e. non-null). -/
theorem codecs_roundtrip :
    (∀ s : Str, stringCodec.decode (some (stringCodec.encode s)) = some s) ∧
    (∀ b : Bool, booleanCodec.decode (some (booleanCodec.encode b)) = some b) ∧
    (∀ v : JsNumber, numberCodec.decode (some (numberCodec.encode v)) = some v) ∧
    (∀ j : Json, jsonCodecM.decode (some (jsonCodecM.encode j)) = some j) := by
  refine ⟨fun s => rfl, fun b => ?_, fun v => ?_, fun j => ?_⟩
  · cases b <;> rfl
  · cases v with
    | none => decide
    | some m => simp [numberCodec, jsNumberToStr, strToInt_intToStr]
  · simp [jsonCodecM, jsonParse_stringify j]

/-- Association-list lookup with first-match-wins, mirroring JavaScript
`Map.get` and object property access (keys are unique in practice). -/
def lookupA {κ β : Type} [DecidableEq κ] : List (κ × β) → κ → Option β
  | [], _ => none
  | (k, v) :: rest, key => if k = key then some v else lookupA rest key

/-- JavaScript `Map.set` / object property write: replaces the entry in
place when the key is present, otherwise appends (insertion order). -/
def setAssoc {κ β : Type} [DecidableEq κ] (key : κ) (v : β) :
    List (κ × β) → List (κ × β)
  | [] => [(key, v)]
  | (k, w) :: rest =>
    if k = key then (key, v) :: rest else (k, w) :: setAssoc key v rest

/-- JavaScript `Map.delete`: removes the (unique) entry for the key. -/
def removeAssoc {κ β : Type} [DecidableEq κ] (key : κ) :
    List (κ × β) → List (κ × β)
  | [] => []
  | (k, w) :: rest => if k = key then rest else (k, w) :: removeAssoc key rest

/-- JavaScript `Set.add` on a set represented as a duplicate-free list in
insertion order. -/
def addToList (x : Nat) (l : List Nat) : List Nat :=
  if x ∈ l then l else l ++ [x]

/-- JavaScript `Set.delete`. -/
def removeFromList (x : Nat) (l : List Nat) : List Nat :=
  l.filter (fun y => y ≠ x)

/-- JavaScript `k.replace(pat, "")` with a string pattern: removes the
first occurrence of `pat`, if any; the empty pattern leaves `k` unchanged. -/
def removeFirst (pat : List Char) : List Char → List Char
  | [] => []
  | c :: rest =>
    if isPfx pat (c :: rest) then (c :: rest).drop pat.length
    else c :: removeFirst pat rest

/-- A schema field, `StorageField` in `src/core/types.ts`: binds a codec. -/
structure StorageField (α : Type) where
  codec : Codec α

/-- A schema: field names mapped to fields, in declaration order
(a JavaScript object literal; `defineStorageSchema` is the identity). -/
abbrev Schema (α : Type) := List (Str × StorageField α)

/-- `makeKey` (`src/core/syncTypedStorage.ts`): the physical key is
`namespace + "-" + key` when the namespace is truthy (present and
non-empty), the logical key alone otherwise. -/
def makeKey (ns : Option Str) (key : Str) : Str :=
  match ns with
  | some n => if n.isEmpty then key else n ++ '-' :: key
  | none => key

/-- The prefix that `keys()` filters on and strips:
`namespace + "-"` when the namespace is truthy, `""` otherwise. -/
def nsPrefix (ns : Option Str) : Str :=
  match ns with
  | some n => if n.isEmpty then [] else n ++ ['-']
  | none => []

/-- One call crossing the facade-adapter boundary, recording the physical
key the adapter received. -/
inductive AdapterCall where
  | getItem (key : Str)
  | setItem (key : Str) (value : Str)
  | deleteItem (key : Str)
  | getAllKeys
  | addListener (key : Str)
  | removeListener (key : Str)
deriving DecidableEq

/-- Combined state of the reference adapter (the test suite's
`localStorageAdapter`: a string store plus per-key listener sets that are
notified on every `setItem`/`deleteItem`) and of the facade's internal
listener bookkeeping.  User callbacks are identified by values of `ι`
(JavaScript function identity); each internal wrapper created by
`addListener` gets a fresh numeric identity from `nextId` and its meaning
(codec plus user callback) is recorded in `wrappers`.  `trace` records every
invocation of a user callback with the delivered typed value, and `calls`
records every facade-to-adapter call. -/
structure Sys (α ι : Type) where
  store : List (Str × Str)
  adListeners : List (Str × List Nat)
  wrappers : List (Nat × Codec α × ι)
  lmap : List (Str × List (ι × Nat))
  nextId : Nat
  trace : List (ι × Option α)
  calls : List AdapterCall

variable {α ι : Type} [DecidableEq ι]

/-- Adapter-internal `notify`: run every listener registered for the
physical key, in insertion order; each internal wrapper decodes the raw
value through its codec and invokes its user callback. -/
def notify (pk : Str) (raw : Option Str) (st : Sys α ι) : Sys α ι :=
  let wids := (lookupA st.adListeners pk).getD []
  let events := wids.filterMap (fun wid =>
    (lookupA st.wrappers wid).map (fun w => (w.2, w.1.decode raw)))
  { st with trace := st.trace ++ events }

/-- Adapter `getItem`. -/
def adapterGetItem (pk : Str) (st : Sys α ι) : Option Str × Sys α ι :=
  (lookupA st.store pk, { st with calls := st.calls ++ [.getItem pk] })

/-- Adapter `setItem`: write the store, then notify the key's listeners
with the new raw value. -/
def adapterSetItem (pk v : Str) (st : Sys α ι) : Sys α ι :=
  notify pk (some v)
    { st with store := setAssoc pk v st.store, calls := st.calls ++ [.setItem pk v] }

/-- Adapter `deleteItem`: delete from the store, then notify with `null`. -/
def adapterDeleteItem (pk : Str) (st : Sys α ι) : Sys α ι :=
  notify pk none
    { st with store := removeAssoc pk st.store,
              calls := st.calls ++ [.deleteItem pk] }

/-- Adapter `getAllKeys`: every physical key in the store. -/
def adapterGetAllKeys (st : Sys α ι) : List Str × Sys α ι :=
  (st.store.map Prod.fst, { st with calls := st.calls ++ [.getAllKeys] })

/-- Adapter `addListener`: get-or-create the key's listener set and add
the wrapper. -/
def adapterAddListener (pk : Str) (wid : Nat) (st : Sys α ι) : Sys α ι :=
  { st with
    adListeners :=
      setAssoc pk (addToList wid ((lookupA st.adListeners pk).getD []))
        st.adListeners,
    calls := st.calls ++ [.addListener pk] }

/-- Adapter `removeListener`: delete the wrapper from the key's listener
set, dropping the set when it becomes empty. -/
def adapterRemoveListener (pk : Str) (wid : Nat) (st : Sys α ι) : Sys α ι :=
  let st2 := { st with calls := st.calls ++ [.removeListener pk] }
  match lookupA st.adListeners pk with
  | none => st2
  | some l =>
    let l2 := removeFromList wid l
    { st2 with
      adListeners :=
        if l2.isEmpty then removeAssoc pk st2.adListeners
        else setAssoc pk l2 st2.adListeners }

/-- The `Unknown storage key` error message thrown by `get`, `set` and
`addListener`. -/
def unknownKeyMsg (key : Str) : Str :=
  ("Unknown storage key: ").data ++ key

/-- Facade `get`: unknown-key check, `adapter.getItem` on the physical
key, decode through the field's codec. -/
def fget (schema : Schema α) (ns : Option Str) (key : Str) (st : Sys α ι) :
    Except Str (Option α) × Sys α ι :=
  match lookupA schema key with
  | none => (.error (unknownKeyMsg key), st)
  | some f =>
    let r := adapterGetItem (makeKey ns key) st
    (.ok (f.codec.decode r.1), r.2)

/-- Facade `set`: unknown-key check, encode through the field's codec,
`adapter.setItem` on the physical key. -/
def fset (schema : Schema α) (ns : Option Str) (key : Str) (v : α)
    (st : Sys α ι) : Except Str Unit × Sys α ι :=
  match lookupA schema key with
  | none => (.error (unknownKeyMsg key), st)
  | some f => (.ok (), adapterSetItem (makeKey ns key) (f.codec.encode v) st)

/-- Facade `remove`: `adapter.deleteItem` on the physical key, with no
schema validation. -/
def fremove (ns : Option Str) (key : Str) (st : Sys α ι) :
    Except Str Unit × Sys α ι :=
  (.ok (), adapterDeleteItem (makeKey ns key) st)

/-- Facade `keys()`: all physical keys, filtered by `startsWith` on the
namespace prefix (everything passes when the prefix is empty), then the
prefix stripped via `replace(prefix, "")`. -/
def fkeys (ns : Option Str) (st : Sys α ι) : List Str × Sys α ι :=
  let r := adapterGetAllKeys st
  let pfx := nsPrefix ns
  ((r.1.filter (fun k => if pfx.isEmpty then true else isPfx pfx k)).map
    (fun k => removeFirst pfx k), r.2)

/-- Facade `clearAll()`: `remove` for every field name declared in the
schema, in declaration order. -/
def fclearAll (schema : Schema α) (ns : Option Str) (st : Sys α ι) : Sys α ι :=
  (schema.map Prod.fst).foldl (fun s k => (fremove ns k s).2) st

/-- Facade `addListener`: no-op without adapter capability; unknown-key
check; create a fresh internal wrapper that decodes through the field's
codec and calls the user callback; store it in the bookkeeping map under
`(physicalKey, callback)` (replacing any previous entry for the same
callback); register it with the adapter. -/
def faddListener (cap : Bool) (schema : Schema α) (ns : Option Str)
    (key : Str) (cb : ι) (st : Sys α ι) : Except Str Unit × Sys α ι :=
  if cap then
    match lookupA schema key with
    | none => (.error (unknownKeyMsg key), st)
    | some f =>
      let pk := makeKey ns key
      let wid := st.nextId
      let st1 := { st with wrappers := st.wrappers ++ [(wid, f.codec, cb)],
                           nextId := st.nextId + 1 }
      let keyMap := (lookupA st1.lmap pk).getD []
      let st2 := { st1 with lmap := setAssoc pk (setAssoc cb wid keyMap) st1.lmap }
      (.ok (), adapterAddListener pk wid st2)
  else (.ok (), st)

/-- Facade `removeListener`: no-op without adapter capability; look up the
stored wrapper for `(physicalKey, callback)`; silent no-op when absent;
otherwise delete the bookkeeping entry (dropping the per-key map when it
becomes empty) and unregister the wrapper from the adapter. -/
def fremoveListener (cap : Bool) (ns : Option Str) (key : Str) (cb : ι)
    (st : Sys α ι) : Except Str Unit × Sys α ι :=
  if cap then
    let pk := makeKey ns key
    match lookupA st.lmap pk with
    | none => (.ok (), st)
    | some keyMap =>
      match lookupA keyMap cb with
      | none => (.ok (), st)
      | some wid =>
        let keyMap2 := removeAssoc cb keyMap
        let lmap2 :=
          if keyMap2.isEmpty then removeAssoc pk st.lmap
          else setAssoc pk keyMap2 st.lmap
        (.ok (), adapterRemoveListener pk wid { st with lmap := lmap2 })
  else (.ok (), st)

/-- The `keys()` prefix of the older facade variant
(`src/unnamed/part_000`): it strips `namespace + ":"`, although that
variant's `makeKey` joins with `"-"` exactly like the current one. -/
def variantNsPrefix (ns : Option Str) : Str :=
  match ns with
  | some n => if n.isEmpty then [] else n ++ [':']
  | none => []

/-- `keys()` of the older facade variant (`src/unnamed/part_000`):
identical to `fkeys` except for the `":"` separator in the prefix. -/
def variantKeys (ns : Option Str) (st : Sys α ι) : List Str × Sys α ι :=
  let r := adapterGetAllKeys st
  let pfx := variantNsPrefix ns
  ((r.1.filter (fun k => if pfx.isEmpty then true else isPfx pfx k)).map
    (fun k => removeFirst pfx k), r.2)

theorem lookupA_setAssoc_self {κ β : Type} [DecidableEq κ] (key : κ) (v : β)
    (l : List (κ × β)) : lookupA (setAssoc key v l) key = some v := by
  induction l with
  | nil => simp [setAssoc, lookupA]
  | cons kv rest ih =>
    obtain ⟨k, w⟩ := kv
    by_cases h : k = key
    · subst h; simp [setAssoc, lookupA]
    · simp [setAssoc, lookupA, h, ih]

theorem lookupA_setAssoc_ne {κ β : Type} [DecidableEq κ] {key key' : κ} (v : β)
    (l : List (κ × β)) (h : key ≠ key') :
    lookupA (setAssoc key v l) key' = lookupA l key' := by
  induction l with
  | nil => simp [setAssoc, lookupA, h]
  | cons kv rest ih =>
    obtain ⟨k, w⟩ := kv
    by_cases hk : k = key
    · subst hk; simp [setAssoc, lookupA, h]
    · simp [setAssoc, lookupA, hk, ih]

theorem lookupA_removeAssoc_ne {κ β : Type} [DecidableEq κ] {key key' : κ}
    (l : List (κ × β)) (h : key ≠ key') :
    lookupA (removeAssoc key l) key' = lookupA l key' := by
  induction l with
  | nil => simp [removeAssoc, lookupA]
  | cons kv rest ih =>
    obtain ⟨k, w⟩ := kv
    by_cases hk : k = key
    · subst hk; simp [removeAssoc, lookupA, h, Ne.symm h]
    · simp [removeAssoc, lookupA, hk, ih]

theorem lookupA_append_of_none {κ β : Type} [DecidableEq κ] {l1 : List (κ × β)}
    (l2 : List (κ × β)) {key : κ} (h : lookupA l1 key = none) :
    lookupA (l1 ++ l2) key = lookupA l2 key := by
  induction l1 with
  | nil => simp
  | cons kv rest ih =>
    obtain ⟨k, w⟩ := kv
    rw [lookupA] at h
    by_cases hk : k = key
    · simp [hk] at h
    · rw [if_neg hk] at h
      simp [lookupA, hk, ih h]

theorem isPfx_nil (k : List Char) : isPfx [] k = true := by
  cases k <;> rfl

theorem removeFirst_nil (k : List Char) : removeFirst [] k = k := by
  cases k with
  | nil => rfl
  | cons c rest => rw [removeFirst, if_pos (isPfx_nil _)]; rfl

theorem removeFirst_of_isPfx {pfx k : List Char} (h : isPfx pfx k = true) :
    removeFirst pfx k = k.drop pfx.length := by
  cases k with
  | nil =>
    cases pfx with
    | nil => rfl
    | cons p ps => simp [isPfx] at h
  | cons c rest => rw [removeFirst, if_pos h]

/-- C2: `get`, `set` and `addListener` (with subscribe capability) raise the
unknown-key error exactly when the logical key has no field in the schema,
synchronously returning it to the caller; `remove` never raises it. -/
theorem unknown_key_error_iff (schema : Schema α) (ns : Option Str) (key : Str)
    (v : α) (cb : ι) (st : Sys α ι) (cap : Bool) (hcap : cap = true) :
    ((fget schema ns key st).1 = Except.error (unknownKeyMsg key) ↔
      lookupA schema key = none) ∧
    ((fset schema ns key v st).1 = Except.error (unknownKeyMsg key) ↔
      lookupA schema key = none) ∧
    ((faddListener cap schema ns key cb st).1 = Except.error (unknownKeyMsg key) ↔
      lookupA schema key = none) ∧
    (fremove ns key st).1 = Except.ok () := by
  subst hcap
  refine ⟨?_, ?_, ?_, rfl⟩
  · cases h : lookupA schema key with
    | none => simp [fget, h]
    | some f => simp [fget, h]
  · cases h : lookupA schema key with
    | none => simp [fset, h]
    | some f => simp [fset, h]
  · cases h : lookupA schema key with
    | none => simp [faddListener, h]
    | some f => simp [faddListener, h]

/-- Concrete instantiation of the unknown-key law: one-field boolean
schema, namespace `"n"`, absent key `"x"`. -/
def wSchemaB : Schema Bool := [(['k'], ⟨booleanCodec⟩)]

/-- Empty system state over boolean values with numeric callback ids. -/
def wSysB : Sys Bool Nat := ⟨[], [], [], [], 0, [], []⟩

theorem unknown_key_error_iff_witness :
    true = true ∧
    (((fget wSchemaB (some ['n']) ['x'] wSysB).1
        = Except.error (unknownKeyMsg ['x']) ↔
      lookupA wSchemaB ['x'] = none) ∧
    ((fset wSchemaB (some ['n']) ['x'] true wSysB).1
        = Except.error (unknownKeyMsg ['x']) ↔
      lookupA wSchemaB ['x'] = none) ∧
    ((faddListener true wSchemaB (some ['n']) ['x'] 0 wSysB).1
        = Except.error (unknownKeyMsg ['x']) ↔
      lookupA wSchemaB ['x'] = none) ∧
    (fremove (some ['n']) ['x'] wSysB).1 = Except.ok ()) :=
  ⟨rfl, unknown_key_error_iff wSchemaB (some ['n']) ['x'] true 0 wSysB true rfl⟩

/-- C3: every adapter call made by `get`, `set`, `remove`, `addListener`
and `removeListener` receives the physical key `makeKey`, which is
`namespace ++ "-" ++ key` for a supplied non-empty namespace and the
logical key alone otherwise. -/
theorem physical_key_namespacing (schema : Schema α) (ns : Option Str)
    (key : Str) (v : α) (cb : ι) (st : Sys α ι) (f : StorageField α)
    (hf : lookupA schema key = some f) (cap : Bool) (hcap : cap = true) :
    (∀ n, ns = some n → n ≠ [] → makeKey ns key = n ++ '-' :: key) ∧
    (ns = none → makeKey ns key = key) ∧
    (fget schema ns key st).2.calls
      = st.calls ++ [.getItem (makeKey ns key)] ∧
    (fset schema ns key v st).2.calls
      = st.calls ++ [.setItem (makeKey ns key) (f.codec.encode v)] ∧
    (fremove ns key st).2.calls
      = st.calls ++ [.deleteItem (makeKey ns key)] ∧
    (faddListener cap schema ns key cb st).2.calls
      = st.calls ++ [.addListener (makeKey ns key)] ∧
    (∀ keyMap wid, lookupA st.lmap (makeKey ns key) = some keyMap →
      lookupA keyMap cb = some wid →
      (fremoveListener cap ns key cb st).2.calls
        = st.calls ++ [.removeListener (makeKey ns key)]) := by
  subst hcap
  refine ⟨?_, ?_, ?_, ?_, ?_, ?_, ?_⟩
  · intro n hn hne
    subst hn
    rw [makeKey, if_neg (by simpa using hne)]
  · intro hn; subst hn; rfl
  · rw [fget, hf]; simp [adapterGetItem]
  · rw [fset, hf]; simp [adapterSetItem, notify]
  · rw [fremove]; simp [adapterDeleteItem, notify]
  · rw [faddListener, if_pos rfl, hf]; simp [adapterAddListener]
  · intro keyMap wid h1 h2
    rw [fremoveListener, if_pos rfl]
    simp only [h1, h2]
    cases hA : lookupA st.adListeners (makeKey ns key) with
    | none => simp [adapterRemoveListener, hA]
    | some l => simp [adapterRemoveListener, hA]

theorem physical_key_namespacing_witness :
    lookupA wSchemaB ['k'] = some ⟨booleanCodec⟩ ∧
    ((∀ n, (some ['n'] : Option Str) = some n → n ≠ [] →
        makeKey (some ['n']) ['k'] = n ++ '-' :: ['k']) ∧
    ((some ['n'] : Option Str) = none → makeKey (some ['n']) ['k'] = ['k']) ∧
    (fget wSchemaB (some ['n']) ['k'] wSysB).2.calls
      = wSysB.calls ++ [.getItem (makeKey (some ['n']) ['k'])] ∧
    (fset wSchemaB (some ['n']) ['k'] true wSysB).2.calls
      = wSysB.calls
        ++ [.setItem (makeKey (some ['n']) ['k'])
              ((⟨booleanCodec⟩ : StorageField Bool).codec.encode true)] ∧
    (fremove (some ['n']) ['k'] wSysB).2.calls
      = wSysB.calls ++ [.deleteItem (makeKey (some ['n']) ['k'])] ∧
    (faddListener true wSchemaB (some ['n']) ['k'] 0 wSysB).2.calls
      = wSysB.calls ++ [.addListener (makeKey (some ['n']) ['k'])] ∧
    (∀ keyMap wid, lookupA wSysB.lmap (makeKey (some ['n']) ['k']) = some keyMap →
      lookupA keyMap 0 = some wid →
      (fremoveListener true (some ['n']) ['k'] 0 wSysB).2.calls
        = wSysB.calls ++ [.removeListener (makeKey (some ['n']) ['k'])])) :=
  ⟨rfl, physical_key_namespacing wSchemaB (some ['n']) ['k'] true 0 wSysB
    ⟨booleanCodec⟩ rfl true rfl⟩

theorem filter_strip_aux (pfx : Str) (l : List Str) :
    (l.filter (fun k => if pfx.isEmpty then true else isPfx pfx k)).map
        (fun k => removeFirst pfx k)
      = (l.filter (fun k => isPfx pfx k)).map (fun k => k.drop pfx.length) := by
  induction l with
  | nil => rfl
  | cons k l ih =>
    by_cases he : pfx.isEmpty
    · have hp : pfx = [] := by simpa using he
      subst hp
      simp [isPfx_nil, removeFirst_nil]
    · by_cases hk : isPfx pfx k = true
      · simp [List.filter_cons, he, hk, removeFirst_of_isPfx hk, ih]
        exact fun a _ ha => removeFirst_of_isPfx ha
      · simp [List.filter_cons, he, hk, ih]
        exact fun a _ ha => removeFirst_of_isPfx ha

/-- C4: `keys()` returns exactly the adapter's physical keys that start
with the current namespace prefix (all of them when no namespace is set),
each with that prefix stripped; keys of other namespaces are excluded by
the filter. -/
theorem keys_filters_and_strips (ns : Option Str) (st : Sys α ι) :
    (fkeys ns st).1
      = ((st.store.map Prod.fst).filter (fun k => isPfx (nsPrefix ns) k)).map
          (fun k => k.drop (nsPrefix ns).length) := by
  rw [fkeys, adapterGetAllKeys]
  exact filter_strip_aux (nsPrefix ns) (st.store.map Prod.fst)

theorem clearAll_aux (ns : Option Str) (ks : List Str) :
    ∀ (st : Sys α ι) (p : Str), p ∉ ks.map (makeKey ns) →
      lookupA (ks.foldl (fun s k => (fremove ns k s).2) st).store p
          = lookupA st.store p ∧
        (ks.foldl (fun s k => (fremove ns k s).2) st).calls
          = st.calls ++ ks.map (fun k => .deleteItem (makeKey ns k)) := by
  induction ks with
  | nil => intro st p _; simp
  | cons k ks ih =>
    intro st p hp
    rw [List.map_cons, List.mem_cons] at hp
    push_neg at hp
    obtain ⟨hp1, hp2⟩ := hp
    rw [List.foldl_cons]
    obtain ⟨ih1, ih2⟩ := ih ((fremove ns k st).2) p hp2
    refine ⟨?_, ?_⟩
    · rw [ih1, fremove]
      simp [adapterDeleteItem, notify, lookupA_removeAssoc_ne _ (Ne.symm hp1)]
    · rw [ih2, fremove]
      simp [adapterDeleteItem, notify]

/-- C5: `clearAll()` calls `remove` for exactly the schema's field names
(in declaration order), and every physical key that is not a schema field's
physical key under the current namespace keeps its stored value. -/
theorem clearAll_frame (schema : Schema α) (ns : Option Str) (st : Sys α ι)
    (p : Str) (hp : p ∉ (schema.map Prod.fst).map (makeKey ns)) :
    lookupA (fclearAll schema ns st).store p = lookupA st.store p ∧
    (fclearAll schema ns st).calls
      = st.calls
        ++ (schema.map Prod.fst).map (fun k => .deleteItem (makeKey ns k)) :=
  clearAll_aux ns (schema.map Prod.fst) st p hp

theorem clearAll_frame_witness :
    (['z'] : Str) ∉ ((wSchemaB.map Prod.fst).map (makeKey (some ['n']))) ∧
    (lookupA (fclearAll wSchemaB (some ['n']) wSysB).store ['z']
        = lookupA wSysB.store ['z'] ∧
      (fclearAll wSchemaB (some ['n']) wSysB).calls
        = wSysB.calls
          ++ ((wSchemaB.map Prod.fst).map
                (fun k => .deleteItem (makeKey (some ['n']) k)))) :=
  ⟨by decide, clearAll_frame wSchemaB (some ['n']) wSysB ['z'] (by decide)⟩

/-- C6: for a schema key bound to any of the four built-in codecs, `get`
returns `null` when the adapter holds no value for the physical key; the
generic facade fact is stated for any codec with `decode(null) = null`, and
all four built-in codecs satisfy that equation. -/
theorem get_absent_returns_null :
    (∀ (schema : Schema α) (ns : Option Str) (key : Str) (st : Sys α ι)
      (f : StorageField α), lookupA schema key = some f →
      f.codec.decode none = none →
      lookupA st.store (makeKey ns key) = none →
      (fget schema ns key st).1 = Except.ok none) ∧
    stringCodec.decode none = none ∧
    booleanCodec.decode none = none ∧
    numberCodec.decode none = none ∧
    jsonCodecM.decode none = none := by
  refine ⟨?_, rfl, rfl, rfl, rfl⟩
  intro schema ns key st f hf hd hs
  rw [fget, hf]
  simp [adapterGetItem, hs, hd]

theorem get_absent_returns_null_witness :
    (lookupA wSchemaB ['k'] = some ⟨booleanCodec⟩ ∧
      (⟨booleanCodec⟩ : StorageField Bool).codec.decode none = none ∧
      lookupA wSysB.store (makeKey (some ['n']) ['k']) = none) ∧
    (fget wSchemaB (some ['n']) ['k'] wSysB).1 = Except.ok none :=
  ⟨⟨rfl, rfl, rfl⟩,
    (@get_absent_returns_null Bool Nat _).1 wSchemaB (some ['n']) ['k']
      wSysB ⟨booleanCodec⟩ rfl rfl rfl⟩

theorem lookupA_of_keys_lt {β : Type} {ws : List (Nat × β)} {n : Nat}
    (h : ∀ e ∈ ws, e.1 < n) : lookupA ws n = none := by
  induction ws with
  | nil => rfl
  | cons kv rest ih =>
    obtain ⟨k, w⟩ := kv
    have hk : k < n := h (k, w) (List.mem_cons_self _ _)
    rw [lookupA, if_neg (by omega)]
    exact ih (fun e he => h e (List.mem_cons_of_mem _ he))

theorem setAssoc_of_none {κ β : Type} [DecidableEq κ] {l : List (κ × β)}
    {key : κ} (v : β) (h : lookupA l key = none) :
    setAssoc key v l = l ++ [(key, v)] := by
  induction l with
  | nil => rfl
  | cons kv rest ih =>
    obtain ⟨k, w⟩ := kv
    rw [lookupA] at h
    by_cases hk : k = key
    · simp [hk] at h
    · rw [if_neg hk] at h
      simp [setAssoc, hk, ih h]

theorem removeAssoc_append_of_none {κ β : Type} [DecidableEq κ]
    {l : List (κ × β)} {key : κ} (v : β) (h : lookupA l key = none) :
    removeAssoc key (l ++ [(key, v)]) = l := by
  induction l with
  | nil => simp [removeAssoc]
  | cons kv rest ih =>
    obtain ⟨k, w⟩ := kv
    rw [lookupA] at h
    by_cases hk : k = key
    · simp [hk] at h
    · rw [if_neg hk] at h
      simp [removeAssoc, hk, ih h]

/-- C7: on an adapter with subscribe capability, after
`addListener(key, cb)` a `set(key, v)` delivers the encoded raw value to
the adapter's listeners, so `cb` is invoked exactly once, with the decoded
typed value `v`; after `removeListener(key, cb)` a further `set` does not
invoke `cb` at all. -/
theorem listener_roundtrip (schema : Schema α) (ns : Option Str) (key : Str)
    (cb : ι) (v v' : α) (st : Sys α ι) (f : StorageField α)
    (hf : lookupA schema key = some f)
    (hrt : f.codec.decode (some (f.codec.encode v)) = some v)
    (hclean : lookupA st.adListeners (makeKey ns key) = none)
    (hlm : lookupA st.lmap (makeKey ns key) = none)
    (hfresh : ∀ e ∈ st.wrappers, e.1 < st.nextId) :
    (fset schema ns key v (faddListener true schema ns key cb st).2).2.trace
      = st.trace ++ [(cb, some v)] ∧
    (fset schema ns key v'
        (fremoveListener true ns key cb
          (fset schema ns key v
            (faddListener true schema ns key cb st).2).2).2).2.trace
      = st.trace ++ [(cb, some v)] := by
  have hwl : lookupA (st.wrappers ++ [(st.nextId, f.codec, cb)]) st.nextId
      = some (f.codec, cb) := by
    rw [lookupA_append_of_none _ (lookupA_of_keys_lt hfresh)]
    simp [lookupA]
  have h1 : (fset schema ns key v (faddListener true schema ns key cb st).2).2.trace
      = st.trace ++ [(cb, some v)] := by
    simp only [faddListener, if_pos rfl, hf, fset, adapterAddListener,
      adapterSetItem, notify, hlm, addToList]
    simp [hclean, lookupA_setAssoc_self, hwl, hrt]
  refine ⟨h1, ?_⟩
  have hrm : removeAssoc (makeKey ns key)
      (setAssoc (makeKey ns key) [st.nextId] st.adListeners) = st.adListeners := by
    rw [setAssoc_of_none [st.nextId] hclean]
    exact removeAssoc_append_of_none _ hclean
  simp only [faddListener, if_pos rfl, hf, fset, adapterAddListener,
    adapterSetItem, notify, hlm, hclean, addToList, fremoveListener,
    adapterRemoveListener]
  simp [lookupA_setAssoc_self, lookupA, removeAssoc, removeFromList, hrm,
    hclean, hwl, hrt]

/-- One-field string schema for concrete listener runs
(`userToken: field(stringCodec)` in miniature). -/
def wSchemaS : Schema Str := [(['k'], ⟨stringCodec⟩)]

/-- Empty system state over string values with numeric callback ids. -/
def wSysS : Sys Str Nat := ⟨[], [], [], [], 0, [], []⟩

theorem listener_roundtrip_witness :
    (lookupA wSchemaS ['k'] = some ⟨stringCodec⟩ ∧
      (⟨stringCodec⟩ : StorageField Str).codec.decode
          (some ((⟨stringCodec⟩ : StorageField Str).codec.encode ['a', 'b', 'c']))
        = some ['a', 'b', 'c'] ∧
      lookupA wSysS.adListeners (makeKey (some ['n']) ['k']) = none ∧
      lookupA wSysS.lmap (makeKey (some ['n']) ['k']) = none ∧
      (∀ e ∈ wSysS.wrappers, e.1 < wSysS.nextId)) ∧
    ((fset wSchemaS (some ['n']) ['k'] ['a', 'b', 'c']
        (faddListener true wSchemaS (some ['n']) ['k'] 0 wSysS).2).2.trace
      = wSysS.trace ++ [(0, some ['a', 'b', 'c'])] ∧
    (fset wSchemaS (some ['n']) ['k'] ['d']
        (fremoveListener true (some ['n']) ['k'] 0
          (fset wSchemaS (some ['n']) ['k'] ['a', 'b', 'c']
            (faddListener true wSchemaS (some ['n']) ['k'] 0 wSysS).2).2).2).2.trace
      = wSysS.trace ++ [(0, some ['a', 'b', 'c'])]) :=
  ⟨⟨rfl, rfl, rfl, rfl, by simp [wSysS]⟩,
    listener_roundtrip wSchemaS (some ['n']) ['k'] 0 ['a', 'b', 'c'] ['d'] wSysS
      ⟨stringCodec⟩ rfl rfl rfl rfl (by simp [wSysS])⟩

/-- C8: `removeListener` for a `(key, callback)` pair with no stored
wrapper is a silent no-op: it reports no error, makes no adapter call, and
leaves the whole system state (including the bookkeeping table) unchanged. -/
theorem removeListener_unregistered_noop (cap : Bool) (ns : Option Str)
    (key : Str) (cb : ι) (st : Sys α ι)
    (h : ∀ keyMap, lookupA st.lmap (makeKey ns key) = some keyMap →
      lookupA keyMap cb = none) :
    fremoveListener cap ns key cb st = (Except.ok (), st) := by
  cases cap with
  | false => rfl
  | true =>
    rw [fremoveListener, if_pos rfl]
    cases hm : lookupA st.lmap (makeKey ns key) with
    | none => simp [hm]
    | some keyMap => simp [hm, h keyMap hm]

theorem removeListener_unregistered_noop_witness :
    (∀ keyMap, lookupA wSysS.lmap (makeKey (some ['n']) ['k']) = some keyMap →
      lookupA keyMap 0 = none) ∧
    fremoveListener true (some ['n']) ['k'] 0 wSysS = (Except.ok (), wSysS) :=
  ⟨fun keyMap hm => by simp [wSysS, lookupA] at hm,
    removeListener_unregistered_noop true (some ['n']) ['k'] 0 wSysS
      (fun keyMap hm => by simp [wSysS, lookupA] at hm)⟩

theorem lookupA_append_of_some {κ β : Type} [DecidableEq κ] {l1 : List (κ × β)}
    (l2 : List (κ × β)) {key : κ} {x : β} (h : lookupA l1 key = some x) :
    lookupA (l1 ++ l2) key = some x := by
  induction l1 with
  | nil => simp [lookupA] at h
  | cons kv rest ih =>
    obtain ⟨k, w⟩ := kv
    rw [lookupA] at h
    by_cases hk : k = key
    · rw [if_pos hk] at h
      simp [lookupA, hk, h]
    · rw [if_neg hk] at h
      simp [lookupA, hk, ih h]

/-- Registering the identical callback twice: the second `addListener`
leaves the callback invoked once per registration, not once.  Concretely,
with a one-field string schema and no namespace, after two
`addListener("k", cb)` calls the adapter's listener set for `"k"` holds two
wrappers, and one `set("k", "v")` invokes the callback twice -- whereas
after a single registration it is invoked once. -/
theorem double_addListener_double_invoke :
    (fset wSchemaS none ['k'] ['v']
        (faddListener true wSchemaS none ['k'] 0
          (faddListener true wSchemaS none ['k'] 0 wSysS).2).2).2.trace
      = [(0, some ['v']), (0, some ['v'])] ∧
    lookupA (faddListener true wSchemaS none ['k'] 0
        (faddListener true wSchemaS none ['k'] 0 wSysS).2).2.adListeners ['k']
      = some [0, 1] ∧
    (fset wSchemaS none ['k'] ['v']
        (faddListener true wSchemaS none ['k'] 0 wSysS).2).2.trace
      = [(0, some ['v'])] := by
  refine ⟨by decide, by decide, by decide⟩

/-- C9 (amended): re-registering the identical callback reference for the
same key succeeds silently and replaces the earlier registration in the
facade's bookkeeping table, which afterwards holds a single entry for the
pair, bound to the newest wrapper; but the earlier internal wrapper remains
registered at the adapter, so the adapter holds one registration per
`addListener` call and a `set` invokes the callback once per call. -/
theorem addListener_reregister_replaces (schema : Schema α) (ns : Option Str)
    (key : Str) (cb : ι) (v : α) (st : Sys α ι) (f : StorageField α)
    (hf : lookupA schema key = some f)
    (hrt : f.codec.decode (some (f.codec.encode v)) = some v)
    (hclean : lookupA st.adListeners (makeKey ns key) = none)
    (hlm : lookupA st.lmap (makeKey ns key) = none)
    (hfresh : ∀ e ∈ st.wrappers, e.1 < st.nextId) :
    (faddListener true schema ns key cb st).1 = Except.ok () ∧
    (faddListener true schema ns key cb
        (faddListener true schema ns key cb st).2).1 = Except.ok () ∧
    lookupA (faddListener true schema ns key cb
        (faddListener true schema ns key cb st).2).2.lmap (makeKey ns key)
      = some [(cb, st.nextId + 1)] ∧
    lookupA (faddListener true schema ns key cb
        (faddListener true schema ns key cb st).2).2.adListeners (makeKey ns key)
      = some [st.nextId, st.nextId + 1] ∧
    (fset schema ns key v
        (faddListener true schema ns key cb
          (faddListener true schema ns key cb st).2).2).2.trace
      = st.trace ++ [(cb, some v), (cb, some v)] := by
  have hw0 : lookupA (st.wrappers
        ++ [(st.nextId, f.codec, cb), (st.nextId + 1, f.codec, cb)]) st.nextId
      = some (f.codec, cb) := by
    rw [lookupA_append_of_none _ (lookupA_of_keys_lt hfresh)]
    simp [lookupA]
  have hw1 : lookupA (st.wrappers
        ++ [(st.nextId, f.codec, cb), (st.nextId + 1, f.codec, cb)]) (st.nextId + 1)
      = some (f.codec, cb) := by
    rw [lookupA_append_of_none _
      (lookupA_of_keys_lt (fun e he => Nat.lt_succ_of_lt (hfresh e he)))]
    rw [lookupA, if_neg (by omega), lookupA, if_pos rfl]
  refine ⟨by rw [faddListener, if_pos rfl, hf], ?_, ?_, ?_, ?_⟩
  · simp [faddListener, hf, adapterAddListener, hlm]
  · simp only [faddListener, if_pos rfl, hf, adapterAddListener, hlm, addToList,
      hclean]
    simp [lookupA_setAssoc_self, setAssoc]
  · simp only [faddListener, if_pos rfl, hf, adapterAddListener, hlm, addToList,
      hclean]
    simp [lookupA_setAssoc_self, setAssoc, Nat.succ_ne_self]
  · simp only [faddListener, if_pos rfl, hf, fset, adapterAddListener,
      adapterSetItem, notify, hlm, hclean, addToList]
    simp [lookupA_setAssoc_self, setAssoc, Nat.succ_ne_self, hw0, hw1, hrt]

theorem addListener_reregister_replaces_witness :
    (lookupA wSchemaS ['k'] = some ⟨stringCodec⟩ ∧
      (⟨stringCodec⟩ : StorageField Str).codec.decode
          (some ((⟨stringCodec⟩ : StorageField Str).codec.encode ['v']))
        = some ['v'] ∧
      lookupA wSysS.adListeners (makeKey none ['k']) = none ∧
      lookupA wSysS.lmap (makeKey none ['k']) = none ∧
      (∀ e ∈ wSysS.wrappers, e.1 < wSysS.nextId)) ∧
    ((faddListener true wSchemaS none ['k'] 0 wSysS).1 = Except.ok () ∧
    (faddListener true wSchemaS none ['k'] 0
        (faddListener true wSchemaS none ['k'] 0 wSysS).2).1 = Except.ok () ∧
    lookupA (faddListener true wSchemaS none ['k'] 0
        (faddListener true wSchemaS none ['k'] 0 wSysS).2).2.lmap
        (makeKey none ['k'])
      = some [(0, wSysS.nextId + 1)] ∧
    lookupA (faddListener true wSchemaS none ['k'] 0
        (faddListener true wSchemaS none ['k'] 0 wSysS).2).2.adListeners
        (makeKey none ['k'])
      = some [wSysS.nextId, wSysS.nextId + 1] ∧
    (fset wSchemaS none ['k'] ['v']
        (faddListener true wSchemaS none ['k'] 0
          (faddListener true wSchemaS none ['k'] 0 wSysS).2).2).2.trace
      = wSysS.trace ++ [(0, some ['v']), (0, some ['v'])]) :=
  ⟨⟨rfl, rfl, rfl, rfl, by simp [wSysS]⟩,
    addListener_reregister_replaces wSchemaS none ['k'] 0 ['v'] wSysS
      ⟨stringCodec⟩ rfl rfl rfl rfl (by simp [wSysS])⟩

/-- C10 evaluated on the repository's two facade implementations: both join
physical keys with `"-"`, but the older variant's `keys()` filters and
strips `namespace + ":"`.  With namespace `"a"`, after `set("k", "5")` the
variant's `keys()` returns `[]` -- the written key is missing -- while the
current facade's `keys()` returns `["k"]` as the claim requires. -/
theorem variant_separator_mismatch :
    (variantKeys (some ['a'])
        (fset wSchemaS (some ['a']) ['k'] ['5'] wSysS).2).1 = ([] : List Str) ∧
    (fkeys (some ['a'])
        (fset wSchemaS (some ['a']) ['k'] ['5'] wSysS).2).1 = [['k']] :=
  ⟨by decide, by decide⟩
